import Mathlib

/-!
Verification of the dynamic LoRA reallocation controller of this repository.

The definitions below are a shallow embedding of the Python sources:
  * `src/pl_callbacks/dyrealloc_llama_callback.py` (the canonical callback,
    per the design notes the plain `dyrealloc_callback.py` is a stale variant
    whose conventions the specification does not adopt),
  * `src/actions/alpha_importance_test.py` (validator script).

Floats are modelled as exact rationals (`ℚ`), machine integers as `Nat`/`Int`,
Python dicts either as insertion-ordered association lists (when the order is
observable) or as partial functions (when it is not), and the process-wide
torch RNG as an explicit state value threaded through the functions that
consume it.  `torch.randperm(n, generator=rng)` is modelled by an abstract
parameter `rp : RngState → Nat → List Nat × RngState` returning the drawn
permutation together with the advanced generator state.
-/

namespace DyRealloc

/-- The abstract state of the process-wide torch RNG (`torch.Generator` state). -/
abbrev RngState := Nat

/-- A trivial model of `torch.randperm`: always the identity permutation.
Used only to instantiate theorems at concrete inputs. -/
def rpIdentity : RngState → Nat → List Nat × RngState :=
  fun s n => (List.range n, s)

/-- `ALPHA_UB = 10`, the denominator of the alpha discretization
(`dyrealloc_llama_callback.py`, module constant). -/
def ALPHA_UB : Nat := 10

/-! ### Task-conditional threshold function
(`dyrealloc_llama_callback.py`, `_alpha_importance_test.get_metric_threshold`
and `.check_exceed_threshold`). -/

/-- The three task names accepted by the callback constructor's `task` assert. -/
inductive Task where
  | classification
  | summarization
  | causal_language_modeling
  deriving DecidableEq

/-- `get_metric_threshold` of `_alpha_importance_test`: the degradation
threshold computed from the reference metric and the reduction tolerance. -/
def get_metric_threshold (task : Task) (original_metric tol : ℚ) : ℚ :=
  match task with
  | .classification => original_metric - original_metric * tol
  | .summarization => original_metric - original_metric * tol
  | .causal_language_modeling => original_metric + 1 / original_metric * tol

/-- `check_exceed_threshold` of `_alpha_importance_test`: strict comparison,
direction inverted for the lower-is-better perplexity metric. -/
def check_exceed_threshold (task : Task) (original_metric tol val_metric : ℚ) : Bool :=
  match task with
  | .classification => decide (val_metric < get_metric_threshold task original_metric tol)
  | .summarization => decide (val_metric < get_metric_threshold task original_metric tol)
  | .causal_language_modeling =>
      decide (val_metric > get_metric_threshold task original_metric tol)

/-! ### Constructor-time strategy resolution
(`dyrealloc_llama_callback.py`, `__init__` and `_get_importance_test`). -/

/-- The seven names accepted by the `importance_test_name` assert in `__init__`. -/
inductive TestName where
  | constant
  | grad_norm
  | snip
  | synflow
  | fisher
  | jacob_cov
  | alpha_test
  deriving DecidableEq

/-- The importance-test callables `_get_importance_test` can actually return. -/
inductive ImportanceTest where
  | constTest
  | gradNormTest
  | snipTest
  | synflowTest
  | alphaImportanceTest
  deriving DecidableEq

/-- Exceptions the constructor can raise while resolving the importance test. -/
inductive InitError where
  | assertionError
  | notImplementedError
  deriving DecidableEq

/-- The list appearing in `assert importance_test_name in [...]` in `__init__`. -/
def importance_test_names : List TestName :=
  [.constant, .grad_norm, .snip, .synflow, .fisher, .jacob_cov, .alpha_test]

/-- `_get_importance_test`: the `match` over the importance-test name;
`fisher` and `jacob_cov` raise `NotImplementedError`. -/
def get_importance_test (name : TestName) : Except InitError ImportanceTest :=
  match name with
  | .alpha_test => .ok .alphaImportanceTest
  | .constant => .ok .constTest
  | .grad_norm => .ok .gradNormTest
  | .snip => .ok .snipTest
  | .synflow => .ok .synflowTest
  | .fisher => .error .notImplementedError
  | .jacob_cov => .error .notImplementedError

/-- The name-dependent part of `DynamicLoraReallocationCallback.__init__`:
first the membership assert, then `self.importance_test = self._get_importance_test()`. -/
def callback_init_importance (name : TestName) : Except InitError ImportanceTest :=
  if name ∈ importance_test_names then get_importance_test name
  else .error .assertionError

/-! ### Per-adapter bisection search of `_alpha_importance_test`
(`dyrealloc_llama_callback.py` lines 875-887).  The loop body evaluates the
mixed-set metric at scale `alpha / ALPHA_UB` and tests `check_exceed_threshold`;
we abstract one adapter's evaluation as `check_exceed : Nat → Bool` on the
integer scale.  The `while lb < rb` loop is embedded with explicit fuel; each
iteration strictly shrinks `rb - lb`, so fuel `ALPHA_UB` suffices for the
initial interval `(0, ALPHA_UB)`.  The second component counts metric
evaluations performed by the loop. -/

def alphaBisect (check_exceed : Nat → Bool) :
    Nat → Nat → Nat → Nat → Nat × Nat
  | 0, _lb, rb, evals => (rb, evals)
  | fuel + 1, lb, rb, evals =>
    if lb < rb then
      let alpha := (lb + rb) / 2
      if check_exceed alpha then alphaBisect check_exceed fuel (alpha + 1) rb (evals + 1)
      else alphaBisect check_exceed fuel lb alpha (evals + 1)
    else (rb, evals)

/-- The whole `lb, rb = (0, ALPHA_UB); while lb < rb: ...; alpha_res = rb`
search for one adapter, returning `(alpha_res, number of metric evaluations)`. -/
def alpha_importance_search (check_exceed : Nat → Bool) : Nat × Nat :=
  alphaBisect check_exceed ALPHA_UB 0 ALPHA_UB 0

/-! ### Mixed evaluation dataloader
(`dyrealloc_llama_callback.py`, `_get_mixed_dataloader`). -/

/-- `torch.stack([a, b], dim=1).view(-1)` for two equal-length index vectors:
pairwise interleaving. -/
def interleavePairs (a b : List Nat) : List Nat :=
  ((a.zip b).map fun p => [p.1, p.2]).flatten

/-- The index sequence built by `_get_mixed_dataloader`: independent random
permutations of the training and validation indices, the longer one's paired
part truncated to the shorter's length, interleaved pairwise, leftover
validation indices appended. -/
def get_mixed_dataloader_indices (rp : RngState → Nat → List Nat × RngState)
    (trainLen valLen : Nat) (rng : RngState) : List Nat × RngState :=
  let tr := rp rng trainLen
  let va := rp tr.2 valLen
  let train_idx := tr.1
  let validation_idx := va.1
  if validation_idx.length ≤ train_idx.length then
    (interleavePairs (train_idx.take validation_idx.length) validation_idx, va.2)
  else
    (interleavePairs train_idx (validation_idx.take train_idx.length) ++
      validation_idx.drop train_idx.length, va.2)

/-! ### Budgeted selection
(`dyrealloc_llama_callback.py`, `reallocation`, the `ags_mode`-off branch,
lines 628-657).  `alpha_list` rows are `(layer_idx, proj_hash, value)`;
`np.argsort` followed by row indexing is rendered by sorting the rows by
value (numpy's unstable quicksort and a stable sort pick the same threshold
value and, when the threshold value is unique, the same top-`budget` row set).
Python's `idx[-budget]` with `budget = 0` is `idx[0]`, and `idx[-0:]` is the
whole array; both are modelled explicitly below.  The `assert len(turn_on)
== budget` is modelled by an `Except`: `.error` is the `AssertionError`. -/

/-- One row of `alpha_list`: layer index, projection-name hash, score. -/
structure ScoreRow where
  layer : Nat
  proj : Nat
  value : ℚ
  deriving DecidableEq

instance : Inhabited ScoreRow := ⟨⟨0, 0, 0⟩⟩

/-- Ordering of score rows by score, the key of `alpha_list[:, 2].argsort()`. -/
def rowLe (a b : ScoreRow) : Prop := a.value ≤ b.value

instance : DecidableRel rowLe :=
  fun a b => inferInstanceAs (Decidable (a.value ≤ b.value))

instance : IsTotal ScoreRow rowLe := ⟨fun a b => le_total a.value b.value⟩

instance : IsTrans ScoreRow rowLe := ⟨fun _ _ _ h h' => le_trans h h'⟩

/-- A module key `(layer_idx, proj_hash)`, one entry of the `turn_on` list. -/
abbrev ModKey := Nat × Nat

/-- `budget = math.floor(turn_on_percentile * original_lora_module_num)`. -/
def turnOnBudget (pct : ℚ) (n : Nat) : Nat := ⌊pct * n⌋.toNat

/-- Python slice `l[:k]` for a possibly negative `k`. -/
def pySlice (k : Int) (l : List Nat) : List Nat :=
  if 0 ≤ k then l.take k.toNat else l.take ((l.length : Int) + k).toNat

/-- Result of the selection step: the `turn_on` list (or the failed assert),
and the generator / captured RNG states (`self.rng`, `self.rng_state`)
after the step. -/
structure SelectResult where
  turn_on : Except Unit (List ModKey)
  gen : RngState
  captured : RngState

/-- The selection step of one reallocation round (`ags_mode` off) with the
budget already computed: threshold at the `budget`-th-from-top sorted score,
uniform tie-break drawn from the restored captured RNG state, final
`assert len(turn_on) == budget`. -/
def selectKeepWithBudget (rp : RngState → Nat → List Nat × RngState)
    (rows : List ScoreRow) (budget : Nat) (gen captured : RngState) : SelectResult :=
  let n := rows.length
  let sortedRows := rows.insertionSort rowLe
  let thrPos := if budget = 0 then 0 else n - budget
  let alpha_threshold := (sortedRows.getD thrPos default).value
  if 1 < rows.countP (fun r => decide (r.value = alpha_threshold)) then
    -- uniformly break tie: rng.set_state(rng_state); randperm; rng_state = rng.get_state()
    let greater := (rows.filter fun r => decide (alpha_threshold < r.value)).map
      fun r => (r.layer, r.proj)
    let tie := (rows.filter fun r => decide (r.value = alpha_threshold)).map
      fun r => (r.layer, r.proj)
    let drawn := rp captured tie.length
    let tie_idx := pySlice ((budget : Int) - (greater.length : Int)) drawn.1
    let turn_on := (tie_idx.map fun i => tie.getD i (0, 0)) ++ greater
    if turn_on.length = budget then ⟨.ok turn_on, drawn.2, drawn.2⟩
    else ⟨.error (), drawn.2, drawn.2⟩
  else
    let keep := if budget = 0 then sortedRows else sortedRows.drop (n - budget)
    let turn_on := keep.map fun r => (r.layer, r.proj)
    if turn_on.length = budget then ⟨.ok turn_on, gen, captured⟩
    else ⟨.error (), gen, captured⟩

/-- The selection step of one reallocation round (`ags_mode` off):
`budget = math.floor(turn_on_percentile * original_lora_module_num)`,
then threshold, tie-break and the length assert. -/
def selectKeep (rp : RngState → Nat → List Nat × RngState)
    (rows : List ScoreRow) (pct : ℚ) (gen captured : RngState) : SelectResult :=
  selectKeepWithBudget rp rows (turnOnBudget pct rows.length) gen captured

/-! ### Applying phase
(`dyrealloc_llama_callback.py`, `reallocation`, lines 702-709): for every
lora module whose active adapter is configured and has positive rank,
`lora.disable_adapters = [layer_idx, proj_hash] not in turn_on`; all other
modules are skipped by the `continue`.  The loop iterates the layers in
reverse and mutates each module once, so the final state is a per-module
map over the model. -/

/-- The slice of a `LoraLinear` state relevant to the applying phase:
whether `active_adapter in lora.lora_A.keys()`, the active adapter's rank
`r[active_adapter]`, and the `disable_adapters` flag. -/
structure LoraLin where
  activeInA : Bool
  r : Nat
  disable_adapters : Bool
  deriving DecidableEq

instance : Inhabited LoraLin := ⟨⟨false, 0, false⟩⟩

/-- A decoder layer: its `layer_idx` and its named lora modules
(projection-name hash ↦ module, in the fixed enumeration order). -/
structure DecoderLayer where
  layer_idx : Nat
  mods : List (Nat × LoraLin)
  deriving DecidableEq

instance : Inhabited DecoderLayer := ⟨⟨0, []⟩⟩

/-- The liveness guard of every per-module loop:
`lora.active_adapter in lora.lora_A.keys() and lora.r[lora.active_adapter] != 0`. -/
def loraIsLive (m : LoraLin) : Bool := m.activeInA && !(m.r == 0)

/-- One module's update in the applying phase. -/
def applyLoraFlag (turn_on : List ModKey) (lidx ph : Nat) (m : LoraLin) : LoraLin :=
  if loraIsLive m then
    { m with disable_adapters := !(turn_on.contains (lidx, ph)) }
  else m

/-- The applying phase over the whole model. -/
def applyTurnOn (turn_on : List ModKey) (layers : List DecoderLayer) :
    List DecoderLayer :=
  layers.map fun L =>
    { L with mods := L.mods.map fun pm => (pm.1, applyLoraFlag turn_on L.layer_idx pm.1 pm.2) }

/-! ### SNIP scoring call
(`dyrealloc_llama_callback.py`, `_snip_test`).  The mutable per-module slice
of model state: the liveness fields, the two low-rank factor weights (one
representative scalar each, exact integers standing for the float tensors),
their `requires_grad` flags, the injected `weight_mask_A/B` parameters
(`none` = attribute absent), and whether `lora.forward` is currently the
monkey-patched `lora_forward`.  `_snip_test` is straight-line code with no
exception handler, so an exception raised by the scoring loop propagates
with all mutations so far still in place; the Boolean result component below
records whether the call completed (`true`) or raised (`false`). -/

/-- Per-module SNIP-relevant state. -/
structure SnipLora where
  activeInA : Bool
  r : Nat
  disable_adapters : Bool
  wA : Int
  wB : Int
  reqA : Bool
  reqB : Bool
  maskA : Option Int
  maskB : Option Int
  patched : Bool
  deriving DecidableEq

instance : Inhabited SnipLora :=
  ⟨⟨false, 0, false, 0, 0, false, false, none, none, false⟩⟩

/-- A decoder layer as seen by `_snip_test`. -/
structure SnipLayer where
  layer_idx : Nat
  mods : List (Nat × SnipLora)
  deriving DecidableEq

instance : Inhabited SnipLayer := ⟨⟨0, []⟩⟩

/-- The per-module liveness guard of the mask-attaching and scoring loops. -/
def snipLive (m : SnipLora) : Bool := m.activeInA && !(m.r == 0)

/-- Map a per-module update over every lora module of the model. -/
def mapMods (f : SnipLora → SnipLora) (layers : List SnipLayer) : List SnipLayer :=
  layers.map fun L => { L with mods := L.mods.map fun pm => (pm.1, f pm.2) }

/-- `for name, param in model.named_parameters(): param.requires_grad = False`. -/
def snipFreezeAll (layers : List SnipLayer) : List SnipLayer :=
  mapMods (fun m => { m with reqA := false, reqB := false }) layers

/-- The mask-attaching loop: for every live module, freeze the factor
weights, attach `weight_mask_A/B = ones` (requiring grad), and replace
`lora.forward` by the masked `lora_forward`. -/
def snipAttachMasks (layers : List SnipLayer) : List SnipLayer :=
  mapMods
    (fun m =>
      if snipLive m then
        { m with reqA := false, reqB := false,
                 maskA := some 1, maskB := some 1, patched := true }
      else m)
    layers

/-- `set_require_grad(model, original_require_grad)`: restore each recorded
parameter's flag from the snapshot taken before freezing (parameters not in
the record — the injected masks — are set to not require grad; the masks'
own flags are not part of this model). -/
def snipRestoreReq (cur orig : List SnipLayer) : List SnipLayer :=
  List.zipWith
    (fun Lc Lo =>
      { Lc with
        mods := List.zipWith
          (fun pc po => (pc.1, { pc.2 with reqA := po.2.reqA, reqB := po.2.reqB }))
          Lc.mods Lo.mods })
    cur orig

/-- The forward-restoring loop: note its guard additionally skips modules
with `lora.disable_adapters` set, unlike the attaching loop. -/
def snipRestoreForward (layers : List SnipLayer) : List SnipLayer :=
  mapMods
    (fun m =>
      if m.activeInA && !m.disable_adapters && !(m.r == 0) then
        { m with patched := false }
      else m)
    layers

/-- `_snip_test` as a transformer of the module states: snapshot the
`requires_grad` flags, freeze everything, attach masks and patch forwards,
run the scoring loop (`loopRaises` says whether it raises), and — only when
the loop completed — restore flags and forwards.  Returns
`(completed?, final module states)`. -/
def snipScoringCall (layers : List SnipLayer) (loopRaises : Bool) :
    Bool × List SnipLayer :=
  let frozen := snipFreezeAll layers
  let withMasks := snipAttachMasks frozen
  if loopRaises then (false, withMasks)
  else
    let restored := snipRestoreReq withMasks layers
    (true, snipRestoreForward restored)

/-- Number of parameters attached to one module: the two factor weights
plus any injected masks. -/
def modParamCount (m : SnipLora) : Nat :=
  2 + (if m.maskA.isSome then 1 else 0) + (if m.maskB.isSome then 1 else 0)

/-- Total number of parameters attached to the lora modules of the model. -/
def snipParamCount (layers : List SnipLayer) : Nat :=
  (layers.map fun L => (L.mods.map fun pm => modParamCount pm.2).sum).sum

/-- Number of live (scored) modules. -/
def snipLiveCount (layers : List SnipLayer) : Nat :=
  (layers.map fun L => L.mods.countP fun pm => snipLive pm.2).sum

/-- The net per-module effect of a completed `_snip_test` call: masks stay
attached (the `del` lines are commented out), the forward patch is undone
for enabled modules but stays for a disabled one, the `requires_grad`
snapshot is restored, weights untouched. -/
def snipFinal (m : SnipLora) : SnipLora :=
  if snipLive m then
    { m with maskA := some 1, maskB := some 1, patched := m.disable_adapters }
  else m

/-! ### SynFlow linearization
(`dyrealloc_llama_callback.py`, `_synflow_test`, `linearize`/`nonlinearize`):
record `torch.sign(param)` for every parameter, take `param.abs_()` in
place, and afterwards restore by `param.mul_(signs[name])`.  Parameter
tensors are modelled as lists of exact integer values. -/

/-- `linearize(net)`: `(signs, linearized parameter values)`. -/
def synflowLinearize (params : List Int) : List Int × List Int :=
  (params.map Int.sign, params.map fun x => |x|)

/-- `nonlinearize(net, signs)`: `param.mul_(signs[name])`. -/
def synflowNonlinearize (params signs : List Int) : List Int :=
  List.zipWith (fun p s => p * s) params signs

/-- Parameter values after a `_synflow_test` call: linearize, score
(which reads but never writes the parameters), nonlinearize. -/
def synflowRoundTrip (params : List Int) : List Int :=
  let ls := synflowLinearize params
  synflowNonlinearize ls.2 ls.1

/-! ### Reallocation history persistence
(`dyrealloc_llama_callback.py`, `save_reallocation_history`).  Each entry of
`self.reallocation_history` is `{epoch, step, turn_on}` where `turn_on` lists
`[layer_idx, proj_name, score, turned_on]` rows; projection names are
represented by their `LORA_NAME_HASH` codes.  The history TOML document is an
insertion-ordered key/value list (Python dicts preserve insertion order);
the frequency document's nested `layer_<i> → proj → count` dicts are
modelled as partial functions since the claims do not observe their key
order. -/

/-- One `turn_on` row of a persisted reallocation record. -/
structure TurnOnRow where
  layer : Nat
  proj : Nat
  score : ℚ
  turned_on : Bool
  deriving DecidableEq

/-- One reallocation record appended by `reallocation`. -/
structure ReallocRound where
  epoch : Nat
  step : Nat
  turn_on : List TurnOnRow
  deriving DecidableEq

/-- Keys of the history document: `max_alpha` or `dyrealloc_<i>`. -/
inductive HistKey where
  | max_alpha
  | dyrealloc (i : Nat)
  deriving DecidableEq

/-- Values of the history document. -/
inductive HistVal where
  | nat (n : Nat)
  | round (r : ReallocRound)
  deriving DecidableEq

/-- Python dict insertion `d[k] = v` on an insertion-ordered association
list: overwrite in place if the key exists, else append. -/
def histInsert (h : List (HistKey × HistVal)) (k : HistKey) (v : HistVal) :
    List (HistKey × HistVal) :=
  if h.any fun p => p.1 == k then
    h.map fun p => if p.1 == k then (p.1, v) else p
  else h ++ [(k, v)]

/-- The nested frequency dict `{layer_<i>: {proj: count}}`:
a partial map from layer index to a partial map from projection to count. -/
def FreqMap := Nat → Option (Nat → Option Nat)

/-- The empty frequency dict. -/
def freqEmpty : FreqMap := fun _ => none

/-- Processing one `turn_on` row of one record in the frequency loop:
a turned-on row inserts-or-increments its count (initialising at 1), a
turned-off row only ensures the key is present with count 0. -/
def freqStep (f : FreqMap) (row : TurnOnRow) : FreqMap :=
  let layerMap : Nat → Option Nat :=
    match f row.layer with
    | none => fun _ => none
    | some m => m
  if row.turned_on then
    let newCount : Nat :=
      match layerMap row.proj with
      | none => 1
      | some c => c + 1
    fun L =>
      if L = row.layer then
        some fun p => if p = row.proj then some newCount else layerMap p
      else f L
  else
    match layerMap row.proj with
    | none =>
      fun L =>
        if L = row.layer then
          some fun p => if p = row.proj then some 0 else layerMap p
        else f L
    | some _ =>
      fun L => if L = row.layer then some layerMap else f L

/-- The persisted frequency document: the top-level
`total_reallocation_number` scalar plus the per-layer count dicts. -/
structure FreqDoc where
  total_reallocation_number : Nat
  layers : FreqMap

/-- `save_reallocation_history`: build the history document (prefixed by
`max_alpha` when the strategy is the alpha test) and the frequency summary
by one pass over the enumerated records. -/
def save_reallocation_history (isAlphaTest : Bool)
    (hist : List ReallocRound) : List (HistKey × HistVal) × FreqDoc :=
  let hist0 : List (HistKey × HistVal) :=
    if isAlphaTest then [(.max_alpha, .nat ALPHA_UB)] else []
  let res :=
    ((List.range hist.length).zip hist).foldl
      (fun acc p =>
        (histInsert acc.1 (.dyrealloc p.1) (.round p.2),
         p.2.turn_on.foldl freqStep acc.2))
      (hist0, freqEmpty)
  (res.1, ⟨hist.length, res.2⟩)

/-- Lookup of one module's count in the frequency document. -/
def lookupFreq (f : FreqMap) (L p : Nat) : Option Nat :=
  match f L with
  | none => none
  | some m => m p

/-- The contents a frequency map is expected to hold after processing
a list of `turn_on` rows. -/
def freqExpected (rows : List TurnOnRow) (L p : Nat) : Option Nat :=
  if 0 < rows.countP (fun row => row.layer == L && row.proj == p && row.turned_on) then
    some (rows.countP fun row => row.layer == L && row.proj == p && row.turned_on)
  else if rows.any (fun row => row.layer == L && row.proj == p) then some 0
  else none

/-! ### Concrete inputs used to instantiate the theorems. -/

/-- Four live modules with pairwise distinct scores (integer-valued scores,
as produced e.g. by the alpha importance test). -/
def rows4 : List ScoreRow :=
  [⟨0, 0, 9⟩, ⟨0, 1, 1⟩, ⟨1, 0, 5⟩, ⟨1, 1, 4⟩]

/-- Four live modules with a two-way tie at the selection cutoff. -/
def rowsTie : List ScoreRow :=
  [⟨0, 0, 9⟩, ⟨0, 1, 1⟩, ⟨1, 0, 5⟩, ⟨1, 1, 5⟩]

/-- A two-layer model: a live module and a rank-0 module per layer. -/
def layersEx : List DecoderLayer :=
  [⟨0, [(0, ⟨true, 2, true⟩), (1, ⟨true, 0, true⟩)]⟩,
   ⟨1, [(0, ⟨true, 4, false⟩), (4, ⟨false, 3, false⟩)]⟩]

/-- One layer with a single live lora module whose factors require grad. -/
def snipLayersEx : List SnipLayer :=
  [⟨0, [(0, ⟨true, 2, false, 3, -4, true, true, none, none, false⟩),
        (1, ⟨true, 0, false, 5, 6, false, false, none, none, false⟩)]⟩]

/-- Two reallocation records: module `(0,0)` turned on twice, module `(1,1)`
evaluated twice but never turned on. -/
def histEx : List ReallocRound :=
  [⟨0, 0, [⟨0, 0, 9, true⟩, ⟨1, 1, 1, false⟩]⟩,
   ⟨0, 40, [⟨0, 0, 7, true⟩, ⟨1, 1, 2, false⟩]⟩]

/-! ## Theorems -/

/-- Iteration bound of the bisection loop: one evaluation, then recurse on a
half-width interval; `itBound 10 = 4 = ⌈log2 11⌉`. -/
def itBound : Nat → Nat
  | 0 => 0
  | w + 1 => itBound ((w + 1) / 2) + 1
decreasing_by exact Nat.div_lt_self (Nat.succ_pos w) (by omega)

theorem itBound_mono : ∀ (b a : Nat), a ≤ b → itBound a ≤ itBound b := by
  intro b
  induction b using Nat.strong_induction_on with
  | _ b ih =>
    intro a hab
    match a, b with
    | 0, b => simp [itBound]
    | a + 1, b + 1 =>
      have h2 : (a + 1) / 2 ≤ (b + 1) / 2 := Nat.div_le_div_right hab
      have hlt : (b + 1) / 2 < b + 1 := Nat.div_lt_self (Nat.succ_pos b) (by omega)
      simp only [itBound]
      exact Nat.add_le_add_right (ih _ hlt _ h2) 1

/-- Loop invariant of `alphaBisect`: under a monotone exceed-check it
converges to the least passing scale, evaluating the metric at most
`itBound (rb - lb)` times. -/
theorem alphaBisect_invariant (ce : Nat → Bool)
    (mono : ∀ j k, j ≤ k → ce k = true → ce j = true) :
    ∀ fuel lb rb evals, lb ≤ rb → rb - lb ≤ fuel →
      (∀ j, j < lb → ce j = true) → ce rb = false →
      lb ≤ (alphaBisect ce fuel lb rb evals).1 ∧
      (alphaBisect ce fuel lb rb evals).1 ≤ rb ∧
      ce (alphaBisect ce fuel lb rb evals).1 = false ∧
      (∀ j, j < (alphaBisect ce fuel lb rb evals).1 → ce j = true) ∧
      (alphaBisect ce fuel lb rb evals).2 ≤ evals + itBound (rb - lb) := by
  intro fuel
  induction fuel with
  | zero =>
    intro lb rb evals hle hf hlow hrb
    have : lb = rb := by omega
    subst this
    simp only [alphaBisect]
    exact ⟨le_refl _, le_refl _, hrb, hlow, by omega⟩
  | succ fuel ih =>
    intro lb rb evals hle hf hlow hrb
    by_cases hlt : lb < rb
    · have hw : itBound (rb - lb) = itBound ((rb - lb) / 2) + 1 := by
        obtain ⟨k, hk⟩ : ∃ k, rb - lb = k + 1 := ⟨rb - lb - 1, by omega⟩
        rw [hk]
        simp [itBound]
      simp only [alphaBisect, if_pos hlt]
      have ha1 : lb ≤ (lb + rb) / 2 := by omega
      have ha2 : (lb + rb) / 2 < rb := by omega
      by_cases hce : ce ((lb + rb) / 2) = true
      · rw [if_pos hce]
        have hrec := ih ((lb + rb) / 2 + 1) rb (evals + 1) (by omega) (by omega)
          (fun j hj => mono j ((lb + rb) / 2) (by omega) hce) hrb
        refine ⟨by omega, hrec.2.1, hrec.2.2.1, hrec.2.2.2.1, ?_⟩
        have hmono := itBound_mono ((rb - lb) / 2) (rb - ((lb + rb) / 2 + 1)) (by omega)
        have := hrec.2.2.2.2
        omega
      · rw [if_neg hce]
        have hrec := ih lb ((lb + rb) / 2) (evals + 1) (by omega) (by omega) hlow
          (by simpa using hce)
        refine ⟨hrec.1, by omega, hrec.2.2.1, hrec.2.2.2.1, ?_⟩
        have hmono := itBound_mono ((rb - lb) / 2) ((lb + rb) / 2 - lb) (by omega)
        have := hrec.2.2.2.2
        omega
    · have : lb = rb := by omega
      subst this
      simp only [alphaBisect, if_neg hlt]
      exact ⟨le_refl _, le_refl _, hrb, hlow, by omega⟩

/-- C3: the Alpha-Importance bisection returns the minimal integer scale in
`[0, ALPHA_UB]` whose evaluation does not exceed the degradation threshold,
assuming the exceed-check is monotone (a larger scale never starts exceeding
when a smaller did not) and that full scale (`ALPHA_UB`, which the loop never
evaluates) passes; it performs at most `4 = ⌈log2 11⌉` metric evaluations. -/
theorem alpha_bisect_minimal (ce : Nat → Bool)
    (mono : ∀ j k, j ≤ k → ce k = true → ce j = true)
    (hub : ce ALPHA_UB = false) :
    (alpha_importance_search ce).1 ≤ ALPHA_UB ∧
    ce (alpha_importance_search ce).1 = false ∧
    (∀ j, j < (alpha_importance_search ce).1 → ce j = true) ∧
    (alpha_importance_search ce).2 ≤ 4 := by
  have h := alphaBisect_invariant ce mono ALPHA_UB 0 ALPHA_UB 0
    (by omega) (by simp [ALPHA_UB]) (by omega) hub
  have h4 : itBound (ALPHA_UB - 0) = 4 := by simp [ALPHA_UB, itBound]
  simp only [alpha_importance_search]
  exact ⟨h.2.1, h.2.2.1, h.2.2.2.1, by omega⟩

/-- Witness for `alpha_bisect_minimal`: an exceed-check failing exactly below
scale 3 makes the search return 3 within the evaluation budget. -/
theorem alpha_bisect_minimal_witness :
    (alpha_importance_search fun j => decide (j < 3)).1 = 3 ∧
    (alpha_importance_search fun j => decide (j < 3)).2 ≤ 4 := by
  refine ⟨by decide, ?_⟩
  exact (alpha_bisect_minimal (fun j => decide (j < 3))
    (fun j k hjk hk => by
      simp only [decide_eq_true_eq] at hk ⊢
      omega)
    (by decide)).2.2.2

/-- C4: for causal language modeling with reference perplexity `20.0` and
tolerance `0.05` the threshold is `20.0 + (1/20.0) * 0.05 = 20.0025`; a
measured perplexity of `20.002` does not exceed it, `20.01` does, and the
comparison is strict (the threshold itself does not exceed).  For
classification and summarization the threshold is
`reference - reference * tolerance` and exceeding means falling strictly
below it. -/
theorem threshold_asymmetry :
    get_metric_threshold .causal_language_modeling 20 0.05 = 20.0025 ∧
    check_exceed_threshold .causal_language_modeling 20 0.05 20.002 = false ∧
    check_exceed_threshold .causal_language_modeling 20 0.05 20.01 = true ∧
    check_exceed_threshold .causal_language_modeling 20 0.05 20.0025 = false ∧
    (∀ om tol : ℚ, get_metric_threshold .classification om tol = om - om * tol) ∧
    (∀ om tol : ℚ, get_metric_threshold .summarization om tol = om - om * tol) ∧
    (∀ om tol v : ℚ,
      check_exceed_threshold .classification om tol v = decide (v < om - om * tol)) ∧
    (∀ om tol v : ℚ,
      check_exceed_threshold .summarization om tol v = decide (v < om - om * tol)) := by
  refine ⟨?_, ?_, ?_, ?_, fun om tol => rfl, fun om tol => rfl,
    fun om tol v => rfl, fun om tol v => rfl⟩
  · show (20 : ℚ) + 1 / 20 * 0.05 = 20.0025
    norm_num
  · show decide ((20.002 : ℚ) > 20 + 1 / 20 * 0.05) = false
    rw [decide_eq_false_iff_not]
    norm_num
  · show decide ((20.01 : ℚ) > 20 + 1 / 20 * 0.05) = true
    rw [decide_eq_true_eq]
    norm_num
  · show decide ((20.0025 : ℚ) > 20 + 1 / 20 * 0.05) = false
    rw [decide_eq_false_iff_not]
    norm_num

/-- C5: the selection step restores the captured RNG state before drawing
the tie-breaking permutation, so its `turn_on` output (and the re-captured
state) depend only on the captured state and the scores, not on the
generator's current state. -/
theorem select_tie_replay (rp : RngState → Nat → List Nat × RngState)
    (rows : List ScoreRow) (pct : ℚ) (g1 g2 cap : RngState) :
    (selectKeep rp rows pct g1 cap).turn_on = (selectKeep rp rows pct g2 cap).turn_on ∧
    (selectKeep rp rows pct g1 cap).captured = (selectKeep rp rows pct g2 cap).captured := by
  simp only [selectKeep, selectKeepWithBudget]
  split_ifs <;> exact ⟨rfl, rfl⟩

theorem interleavePairs_length (a : List Nat) :
    ∀ (b : List Nat), (interleavePairs a b).length = 2 * min a.length b.length := by
  induction a with
  | nil => intro b; simp [interleavePairs]
  | cons x as ih =>
    intro b
    cases b with
    | nil => simp [interleavePairs]
    | cons y bs =>
      simp only [interleavePairs] at ih ⊢
      simp only [List.zip_cons_cons, List.map_cons, List.flatten_cons, List.length_append,
        List.length_cons, List.length_nil]
      rw [ih bs, Nat.succ_min_succ]
      omega

/-- C8: the mixed evaluation dataloader's index sequence — one random
permutation of the training indices and one of the validation indices,
paired portions truncated to the shorter length, interleaved pairwise with
leftover validation indices appended — has length
`2 * min T V + max 0 (V - T)`, and is a function of the RNG state alone. -/
theorem mixed_dataloader_length (rp : RngState → Nat → List Nat × RngState)
    (hrp : ∀ s n, (rp s n).1.length = n) (trainLen valLen : Nat) (rng : RngState) :
    (get_mixed_dataloader_indices rp trainLen valLen rng).1.length =
      2 * min trainLen valLen + (valLen - trainLen) := by
  simp only [get_mixed_dataloader_indices]
  split
  next h =>
    rw [interleavePairs_length]
    simp only [hrp, List.length_take] at h ⊢
    omega
  next h =>
    simp only [List.length_append, interleavePairs_length, hrp, List.length_take,
      List.length_drop] at h ⊢
    omega

/-- Witness for `mixed_dataloader_length` at `T = 3, V = 5` and `T = 5, V = 3`
with the identity permutation model of `torch.randperm`. -/
theorem mixed_dataloader_length_witness :
    (get_mixed_dataloader_indices rpIdentity 3 5 0).1.length = 8 ∧
    (get_mixed_dataloader_indices rpIdentity 5 3 0).1.length = 6 := by
  constructor
  · exact mixed_dataloader_length rpIdentity (fun s n => List.length_range n) 3 5 0
  · exact mixed_dataloader_length rpIdentity (fun s n => List.length_range n) 5 3 0

theorem countP_value_split (t : ℚ) (l : List ScoreRow) :
    l.countP (fun r => decide (t ≤ r.value)) =
      l.countP (fun r => decide (r.value = t)) + l.countP (fun r => decide (t < r.value)) := by
  induction l with
  | nil => rfl
  | cons a l ih =>
    simp only [List.countP_cons, ih]
    rcases lt_trichotomy a.value t with h | h | h
    · rw [decide_eq_false (not_le.mpr h), decide_eq_false h.ne, decide_eq_false (lt_asymm h)]
      simp
    · rw [decide_eq_true (le_of_eq h.symm), decide_eq_true h,
        decide_eq_false (by rw [h]; exact lt_irrefl t)]
      simp
      omega
    · rw [decide_eq_true h.le, decide_eq_false (ne_of_gt h), decide_eq_true h]
      simp
      omega

/-- In a value-sorted row list, with the threshold taken at position
`length - b`, fewer than `b` rows lie strictly above the threshold and at
least `b` rows lie at or above it. -/
theorem sorted_count_bounds (l : List ScoreRow) (hs : l.Sorted rowLe) (b : Nat)
    (hb1 : 1 ≤ b) (hbn : b ≤ l.length) :
    l.countP (fun r => decide ((l.getD (l.length - b) default).value < r.value)) ≤ b - 1 ∧
    b ≤ l.countP (fun r => decide ((l.getD (l.length - b) default).value ≤ r.value)) := by
  have hpos : l.length - b < l.length := by omega
  set pos := l.length - b with hposdef
  set t := (l.getD pos default).value with ht
  have hget : l.getD pos default = l[pos] := List.getD_eq_getElem l default hpos
  constructor
  · have h1 := congrArg (List.countP fun r => decide (t < r.value))
      (List.take_append_drop (pos + 1) l)
    rw [List.countP_append] at h1
    have hpw : (l.take pos ++ [l[pos]]).Pairwise rowLe := by
      have h2 := List.Pairwise.sublist (List.take_sublist (pos + 1) l) hs
      rwa [List.take_succ, List.getElem?_eq_getElem hpos, Option.toList_some] at h2
    have htake : (l.take (pos + 1)).countP (fun r => decide (t < r.value)) = 0 := by
      rw [List.countP_eq_zero]
      intro x hx
      rw [List.take_succ, List.getElem?_eq_getElem hpos, Option.toList_some] at hx
      simp only [decide_eq_true_eq, not_lt]
      rcases List.mem_append.mp hx with hmem | hmem
      · have hr : rowLe x l[pos] :=
          (List.pairwise_append.mp hpw).2.2 x hmem l[pos] (List.mem_singleton_self _)
        rw [ht, hget]
        exact hr
      · have hx3 : x = l[pos] := by simpa using hmem
        rw [hx3, ht, hget]
    have hdl : (l.drop (pos + 1)).countP (fun r => decide (t < r.value)) ≤
        (l.drop (pos + 1)).length := List.countP_le_length _
    rw [List.length_drop] at hdl
    omega
  · have hsub : List.Sublist (l.drop pos) l := List.drop_sublist pos l
    have hdropc : l.drop pos = l[pos] :: l.drop (pos + 1) := List.drop_eq_getElem_cons hpos
    have hpw : (l.drop pos).Pairwise rowLe := List.Pairwise.sublist hsub hs
    rw [hdropc] at hpw
    have hall : ∀ x ∈ l.drop pos, (fun r => decide (t ≤ r.value)) x = true := by
      intro x hx
      rw [hdropc] at hx
      simp only [decide_eq_true_eq]
      rcases List.mem_cons.mp hx with h | h
      · rw [h, ht, hget]
      · have hr : rowLe l[pos] x := List.rel_of_pairwise_cons hpw h
        rw [ht, hget]
        exact hr
    have hlen : (l.drop pos).countP (fun r => decide (t ≤ r.value)) = (l.drop pos).length :=
      List.countP_eq_length.mpr hall
    have hle : (l.drop pos).countP (fun r => decide (t ≤ r.value)) ≤
        l.countP (fun r => decide (t ≤ r.value)) :=
      List.Sublist.countP_le _ hsub
    rw [hlen, List.length_drop] at hle
    omega

/-- Core of the budget-exactness claim: for `1 ≤ budget ≤ |rows|` the
selection's length assert always passes and the `turn_on` list has exactly
`budget` entries, ties included (in the tie branch the strictly-greater
rows number at most `budget - 1` and the tied rows fill the difference). -/
theorem selectWithBudget_exact (rp : RngState → Nat → List Nat × RngState)
    (hrp : ∀ s n, (rp s n).1.length = n)
    (rows : List ScoreRow) (b : Nat) (gen cap : RngState)
    (hb : 1 ≤ b) (hbn : b ≤ rows.length) :
    ∃ keep, (selectKeepWithBudget rp rows b gen cap).turn_on = .ok keep ∧
      keep.length = b := by
  have hbne : b ≠ 0 := by omega
  simp only [selectKeepWithBudget, if_neg hbne]
  have hperm : List.Perm (rows.insertionSort rowLe) rows := List.perm_insertionSort rowLe rows
  have hslen : (rows.insertionSort rowLe).length = rows.length := hperm.length_eq
  have hsort : (rows.insertionSort rowLe).Sorted rowLe := List.sorted_insertionSort rowLe rows
  have hbounds := sorted_count_bounds (rows.insertionSort rowLe) hsort b hb (by omega)
  rw [hslen] at hbounds
  set s := rows.insertionSort rowLe with hsdef
  set t := (s.getD (rows.length - b) default).value with htdef
  have hcg : s.countP (fun r => decide (t < r.value)) =
      rows.countP (fun r => decide (t < r.value)) := hperm.countP_eq _
  have hcge : s.countP (fun r => decide (t ≤ r.value)) =
      rows.countP (fun r => decide (t ≤ r.value)) := hperm.countP_eq _
  have hsplit := countP_value_split t rows
  by_cases htie : 1 < rows.countP fun r => decide (r.value = t)
  · rw [if_pos htie]
    have hg : ((rows.filter fun r => decide (t < r.value)).map
        fun r => ((r.layer, r.proj) : ModKey)).length =
        rows.countP (fun r => decide (t < r.value)) := by
      rw [List.length_map, ← List.countP_eq_length_filter]
    have he : ((rows.filter fun r => decide (r.value = t)).map
        fun r => ((r.layer, r.proj) : ModKey)).length =
        rows.countP (fun r => decide (r.value = t)) := by
      rw [List.length_map, ← List.countP_eq_length_filter]
    set g := rows.countP (fun r => decide (t < r.value)) with hgdef
    set e := rows.countP (fun r => decide (r.value = t)) with hedef
    have hgb : g ≤ b - 1 := by omega
    have heg : b ≤ e + g := by omega
    have hdrawlen : (rp cap ((rows.filter fun r => decide (r.value = t)).map
        fun r => ((r.layer, r.proj) : ModKey)).length).1.length = e := by
      rw [hrp, he]
    have hslice : (pySlice ((b : Int) - (((rows.filter fun r => decide (t < r.value)).map
        fun r => ((r.layer, r.proj) : ModKey)).length : Int))
        (rp cap ((rows.filter fun r => decide (r.value = t)).map
          fun r => ((r.layer, r.proj) : ModKey)).length).1).length = b - g := by
      rw [pySlice, if_pos (by rw [hg]; omega), List.length_take, hdrawlen, hg]
      omega
    have hlen : ((pySlice ((b : Int) - (((rows.filter fun r => decide (t < r.value)).map
        fun r => ((r.layer, r.proj) : ModKey)).length : Int))
        (rp cap ((rows.filter fun r => decide (r.value = t)).map
          fun r => ((r.layer, r.proj) : ModKey)).length).1).map
        (fun i => ((rows.filter fun r => decide (r.value = t)).map
          fun r => ((r.layer, r.proj) : ModKey)).getD i (0, 0)) ++
        ((rows.filter fun r => decide (t < r.value)).map
          fun r => ((r.layer, r.proj) : ModKey))).length = b := by
      rw [List.length_append, List.length_map, hslice, hg]
      omega
    rw [if_pos hlen]
    exact ⟨_, rfl, hlen⟩
  · rw [if_neg htie]
    have hklen : ((rows.insertionSort rowLe).drop (rows.length - b)).length = b := by
      rw [List.length_drop, hslen]
      omega
    have hlen2 : (((rows.insertionSort rowLe).drop (rows.length - b)).map
        fun r => ((r.layer, r.proj) : ModKey)).length = b := by
      rw [List.length_map, hklen]
    rw [if_pos hlen2]
    exact ⟨_, rfl, hlen2⟩

/-- C1 (amended): whenever the budget
`floor(turn_on_percentile * number of scored modules)` is at least 1 — in
particular for every `turn_on_percentile ∈ (0,1]` that yields a nonzero
budget — the selection step returns a `turn_on` list of exactly that many
modules, even when many modules tie at the cutoff score.  (The claim as
stated, quantifying over all of `(0,1]`, fails when the floor is 0: see the
counterexample `select_budget_zero_cx`.) -/
theorem select_budget_exact (rp : RngState → Nat → List Nat × RngState)
    (hrp : ∀ s n, (rp s n).1.length = n)
    (rows : List ScoreRow) (pct : ℚ) (gen cap : RngState)
    (hpct : pct ≤ 1) (hb : 1 ≤ turnOnBudget pct rows.length) :
    ∃ keep, (selectKeep rp rows pct gen cap).turn_on = .ok keep ∧
      keep.length = turnOnBudget pct rows.length := by
  have hbn : turnOnBudget pct rows.length ≤ rows.length := by
    rw [turnOnBudget]
    have hn0 : (0 : ℚ) ≤ (rows.length : ℚ) := Nat.cast_nonneg _
    have hmul : (pct * rows.length : ℚ) ≤ (rows.length : ℚ) := by nlinarith
    have hfl : ⌊(pct * (rows.length : ℚ))⌋ ≤ (rows.length : Int) := by
      calc ⌊(pct * (rows.length : ℚ))⌋ ≤ ⌊((rows.length : ℚ))⌋ := Int.floor_le_floor hmul
        _ = (rows.length : Int) := Int.floor_natCast _
    omega
  rw [selectKeep]
  exact selectWithBudget_exact rp hrp rows _ gen cap hb hbn

/-- C1 (counterexample to the claim as stated): with four distinct scores
and `turn_on_percentile = 1/10 ∈ (0,1]` the budget floors to 0; Python's
`idx[-0:]` then selects every module, and the selection step dies on
`assert len(turn_on) == budget` instead of returning a kept set of size 0. -/
theorem select_budget_zero_cx :
    turnOnBudget (1 / 10) rows4.length = 0 ∧
    (selectKeep rpIdentity rows4 (1 / 10) 0 0).turn_on = .error () := by
  have hb : turnOnBudget (1 / 10) rows4.length = 0 := by
    rw [turnOnBudget]
    norm_num [rows4]
  refine ⟨hb, ?_⟩
  rw [selectKeep, hb]
  rfl

/-- Witness for `select_budget_exact`: percentile `1/2` over four scored
modules keeps exactly two. -/
theorem select_budget_exact_witness :
    1 ≤ turnOnBudget (1 / 2) rows4.length ∧
    ∃ keep, (selectKeep rpIdentity rows4 (1 / 2) 0 0).turn_on = .ok keep ∧
      keep.length = turnOnBudget (1 / 2) rows4.length := by
  have hb : turnOnBudget (1 / 2) rows4.length = 2 := by
    rw [turnOnBudget]
    have h2 : ⌊((1 : ℚ) / 2) * (rows4.length : ℚ)⌋ = 2 := by norm_num [rows4]
    rw [h2]
    rfl
  refine ⟨by omega, ?_⟩
  exact select_budget_exact rpIdentity (fun s n => List.length_range n) rows4 (1 / 2) 0 0
    (by norm_num) (by omega)

/-- C2: at the end of the Applying phase, every live adapter (active variant
configured and rank > 0) has `enabled = not disable_adapters` equal to the
membership of its `(layer_idx, proj_hash)` key in the kept set, while every
other adapter keeps its previous flag (and its key) unchanged. -/
theorem apply_phase_flags (turn_on : List ModKey) (layers : List DecoderLayer)
    (i j : Nat) (hi : i < layers.length)
    (hj : j < (layers.getD i default).mods.length) :
    (((applyTurnOn turn_on layers).getD i default).mods.getD j default).1 =
      ((layers.getD i default).mods.getD j default).1 ∧
    (loraIsLive ((layers.getD i default).mods.getD j default).2 = true →
      (((((applyTurnOn turn_on layers).getD i default).mods.getD j default).2.disable_adapters
          = false) ↔
        ((layers.getD i default).layer_idx,
          ((layers.getD i default).mods.getD j default).1) ∈ turn_on)) ∧
    (loraIsLive ((layers.getD i default).mods.getD j default).2 = false →
      (((applyTurnOn turn_on layers).getD i default).mods.getD j default).2 =
        ((layers.getD i default).mods.getD j default).2) := by
  have hlen : i < (applyTurnOn turn_on layers).length := by
    simpa [applyTurnOn] using hi
  have h1 : (applyTurnOn turn_on layers).getD i default =
      { layers.getD i default with
        mods := (layers.getD i default).mods.map fun pm =>
          (pm.1, applyLoraFlag turn_on (layers.getD i default).layer_idx pm.1 pm.2) } := by
    rw [List.getD_eq_getElem _ _ hlen, List.getD_eq_getElem _ _ hi]
    simp only [applyTurnOn, List.getElem_map]
  rw [h1]
  have hj2 : j < ((layers.getD i default).mods.map fun pm =>
      (pm.1, applyLoraFlag turn_on (layers.getD i default).layer_idx pm.1 pm.2)).length := by
    simpa using hj
  rw [show ((layers.getD i default).mods.map fun pm =>
      (pm.1, applyLoraFlag turn_on (layers.getD i default).layer_idx pm.1 pm.2)).getD j default =
      (((layers.getD i default).mods.getD j default).1,
        applyLoraFlag turn_on (layers.getD i default).layer_idx
          ((layers.getD i default).mods.getD j default).1
          ((layers.getD i default).mods.getD j default).2) from by
    rw [List.getD_eq_getElem _ _ hj2, List.getElem_map, List.getD_eq_getElem _ _ hj]]
  refine ⟨rfl, fun hlive => ?_, fun hdead => ?_⟩
  · simp only [applyLoraFlag, hlive, if_true, Bool.not_eq_false']
    exact List.elem_iff
  · simp only [applyLoraFlag, hdead, Bool.false_eq_true, if_false]

/-- Witness for `apply_phase_flags`: layer 1's live module with key `(1,0)`
in the kept set ends up enabled. -/
theorem apply_phase_flags_witness :
    loraIsLive ((layersEx.getD 1 default).mods.getD 0 default).2 = true ∧
    (((((applyTurnOn [(1, 0)] layersEx).getD 1 default).mods.getD 0 default).2.disable_adapters
        = false) ↔
      ((layersEx.getD 1 default).layer_idx,
        ((layersEx.getD 1 default).mods.getD 0 default).1) ∈ [((1 : Nat), (0 : Nat))]) := by
  exact ⟨by decide,
    (apply_phase_flags [(1, 0)] layersEx 1 0 (by decide) (by decide)).2.1 (by decide)⟩

theorem mapMods_mapMods (f g : SnipLora → SnipLora) (layers : List SnipLayer) :
    mapMods f (mapMods g layers) = mapMods (fun m => f (g m)) layers := by
  simp [mapMods, List.map_map, Function.comp]

theorem zipWith_req_map (g : SnipLora → SnipLora) :
    ∀ mods : List (Nat × SnipLora),
      List.zipWith (fun pc po => (pc.1, { pc.2 with reqA := po.2.reqA, reqB := po.2.reqB }))
        (mods.map fun pm => (pm.1, g pm.2)) mods =
      mods.map fun pm => (pm.1, { g pm.2 with reqA := pm.2.reqA, reqB := pm.2.reqB })
  | [] => rfl
  | pm :: rest => by
    simp only [List.map_cons, List.zipWith_cons_cons, zipWith_req_map g rest]

theorem snipRestoreReq_mapMods (g : SnipLora → SnipLora) :
    ∀ layers : List SnipLayer,
      snipRestoreReq (mapMods g layers) layers =
        mapMods (fun m => { g m with reqA := m.reqA, reqB := m.reqB }) layers
  | [] => rfl
  | L :: rest => by
    simp only [mapMods, List.map_cons, snipRestoreReq, List.zipWith_cons_cons]
    have ih := snipRestoreReq_mapMods g rest
    simp only [mapMods, snipRestoreReq] at ih
    rw [ih, zipWith_req_map g L.mods]

theorem mapMods_congr (f g : SnipLora → SnipLora) (h : ∀ m, f m = g m)
    (layers : List SnipLayer) : mapMods f layers = mapMods g layers := by
  rw [funext h]

theorem snipScoringCall_ok (layers : List SnipLayer) :
    snipScoringCall layers false = (true, mapMods snipFinal layers) := by
  rw [snipScoringCall]
  simp only [Bool.false_eq_true, if_false]
  rw [snipFreezeAll, snipAttachMasks, mapMods_mapMods, snipRestoreReq_mapMods,
    snipRestoreForward, mapMods_mapMods]
  rw [mapMods_congr _ snipFinal _ layers]
  intro m
  obtain ⟨a, r, d, wa, wb, ra, rb, ma, mb, p⟩ := m
  by_cases hr : r = 0 <;> cases a <;> cases d <;>
    simp [snipLive, snipFinal, hr]

theorem modsCount_final :
    ∀ mods : List (Nat × SnipLora),
      (∀ pm ∈ mods, pm.2.maskA = none ∧ pm.2.maskB = none) →
      ((mods.map fun pm => (pm.1, snipFinal pm.2)).map fun pm => modParamCount pm.2).sum =
        (mods.map fun pm => modParamCount pm.2).sum + 2 * mods.countP fun pm => snipLive pm.2
  | [], _ => rfl
  | pm :: rest, h => by
    have ih := modsCount_final rest fun q hq => h q (List.mem_cons_of_mem pm hq)
    have hm := h pm (List.mem_cons_self pm rest)
    by_cases hl : snipLive pm.2 = true
    · have h1 : modParamCount (snipFinal pm.2) = 4 := by
        simp [snipFinal, hl, modParamCount]
      have h2 : modParamCount pm.2 = 2 := by
        simp [modParamCount, hm.1, hm.2]
      simp only [List.map_cons, List.sum_cons, List.countP_cons, ih, h1, h2, hl, if_true]
      omega
    · have h1 : snipFinal pm.2 = pm.2 := by
        simp [snipFinal, hl]
      rw [Bool.not_eq_true] at hl
      simp only [List.map_cons, List.sum_cons, List.countP_cons, ih, h1, hl,
        Bool.false_eq_true, if_false]
      omega

theorem snipParamCount_final :
    ∀ layers : List SnipLayer,
      (∀ L ∈ layers, ∀ pm ∈ L.mods, pm.2.maskA = none ∧ pm.2.maskB = none) →
      snipParamCount (mapMods snipFinal layers) =
        snipParamCount layers + 2 * snipLiveCount layers
  | [], _ => rfl
  | L :: rest, h => by
    have ih := snipParamCount_final rest fun M hM => h M (List.mem_cons_of_mem L hM)
    have hL := h L (List.mem_cons_self L rest)
    simp only [mapMods, List.map_cons, snipParamCount, snipLiveCount, List.sum_cons] at ih ⊢
    rw [modsCount_final L.mods hL]
    omega

theorem synflowRoundTrip_eq : ∀ params : List Int, synflowRoundTrip params = params
  | [] => rfl
  | x :: rest => by
    have ih := synflowRoundTrip_eq rest
    simp only [synflowRoundTrip, synflowLinearize, synflowNonlinearize, List.map_cons,
      List.zipWith_cons_cons] at ih ⊢
    rw [ih, mul_comm]
    rw [Int.sign_mul_abs]

/-- C6: the claim that SNIP restores the `requires_grad` flags and the
patched forwards unconditionally — even if the scoring loop raises — fails
on the code: `_snip_test` is straight-line code with no `try/finally`, so
when the loop raises, the live module's factor flags stay frozen and its
forward stays monkey-patched (first five conjuncts evaluate the embedded
call on a one-live-module model with a raising loop, against the pre-call
state).  On the normal path the restoration does happen (next three
conjuncts), and SynFlow's sign/abs round-trip is exact (last conjunct). -/
theorem snip_restore_not_unconditional :
    (snipScoringCall snipLayersEx true).1 = false ∧
    ((snipLayersEx.getD 0 default).mods.getD 0 default).2.reqA = true ∧
    ((snipLayersEx.getD 0 default).mods.getD 0 default).2.patched = false ∧
    (((snipScoringCall snipLayersEx true).2.getD 0 default).mods.getD 0 default).2.reqA
      = false ∧
    (((snipScoringCall snipLayersEx true).2.getD 0 default).mods.getD 0 default).2.patched
      = true ∧
    (((snipScoringCall snipLayersEx false).2.getD 0 default).mods.getD 0 default).2.reqA
      = true ∧
    (((snipScoringCall snipLayersEx false).2.getD 0 default).mods.getD 0 default).2.patched
      = false ∧
    (((snipScoringCall snipLayersEx false).2.getD 0 default).mods.getD 0 default).2.wA
      = 3 ∧
    (∀ params : List Int, synflowRoundTrip params = params) := by
  refine ⟨by decide, by decide, by decide, by decide, by decide, by decide, by decide,
    by decide, synflowRoundTrip_eq⟩

/-- C10: after a completed SNIP scoring call, the injected `weight_mask_A/B`
parameters remain attached to every live (scored) module (the `del` lines
are commented out), so — whenever at least one module is scored — the model's
parameter count strictly increases by two per live module, while the
original factor weights themselves are untouched. -/
theorem snip_masks_remain (layers : List SnipLayer)
    (hnomask : ∀ L ∈ layers, ∀ pm ∈ L.mods, pm.2.maskA = none ∧ pm.2.maskB = none)
    (i j : Nat) (hi : i < layers.length)
    (hj : j < (layers.getD i default).mods.length) :
    (snipScoringCall layers false).1 = true ∧
    (snipLive ((layers.getD i default).mods.getD j default).2 = true →
      ((((snipScoringCall layers false).2.getD i default).mods.getD j default).2.maskA
          = some 1 ∧
        (((snipScoringCall layers false).2.getD i default).mods.getD j default).2.maskB
          = some 1)) ∧
    (((snipScoringCall layers false).2.getD i default).mods.getD j default).2.wA =
      ((layers.getD i default).mods.getD j default).2.wA ∧
    (((snipScoringCall layers false).2.getD i default).mods.getD j default).2.wB =
      ((layers.getD i default).mods.getD j default).2.wB ∧
    snipParamCount (snipScoringCall layers false).2 =
      snipParamCount layers + 2 * snipLiveCount layers ∧
    (0 < snipLiveCount layers →
      snipParamCount layers < snipParamCount (snipScoringCall layers false).2) := by
  rw [snipScoringCall_ok layers]
  have hlen : i < (mapMods snipFinal layers).length := by
    simpa [mapMods] using hi
  have h1 : (mapMods snipFinal layers).getD i default =
      { layers.getD i default with
        mods := (layers.getD i default).mods.map fun pm => (pm.1, snipFinal pm.2) } := by
    rw [List.getD_eq_getElem _ _ hlen, List.getD_eq_getElem _ _ hi]
    simp only [mapMods, List.getElem_map]
  have hj2 : j < ((layers.getD i default).mods.map fun pm =>
      (pm.1, snipFinal pm.2)).length := by
    simpa using hj
  have h2 : ((layers.getD i default).mods.map fun pm =>
      (pm.1, snipFinal pm.2)).getD j default =
      (((layers.getD i default).mods.getD j default).1,
        snipFinal ((layers.getD i default).mods.getD j default).2) := by
    rw [List.getD_eq_getElem _ _ hj2, List.getElem_map, List.getD_eq_getElem _ _ hj]
  rw [h1]
  simp only [h2]
  have hcount := snipParamCount_final layers hnomask
  refine ⟨trivial, fun hlive => ?_, ?_, ?_, hcount, fun hpos => by omega⟩
  · rw [snipFinal, if_pos hlive]
    exact ⟨rfl, rfl⟩
  · rw [snipFinal]
    by_cases hlive : snipLive ((layers.getD i default).mods.getD j default).2 = true
    · rw [if_pos hlive]
    · rw [if_neg hlive]
  · rw [snipFinal]
    by_cases hlive : snipLive ((layers.getD i default).mods.getD j default).2 = true
    · rw [if_pos hlive]
    · rw [if_neg hlive]

/-- Witness for `snip_masks_remain` on the one-live-module model. -/
theorem snip_masks_remain_witness :
    (snipScoringCall snipLayersEx false).1 = true ∧
    (((snipScoringCall snipLayersEx false).2.getD 0 default).mods.getD 0 default).2.maskA
      = some 1 ∧
    snipParamCount snipLayersEx < snipParamCount (snipScoringCall snipLayersEx false).2 := by
  have h := snip_masks_remain snipLayersEx (by decide) 0 0 (by decide) (by decide)
  exact ⟨h.1, (h.2.1 (by decide)).1, h.2.2.2.2.2 (by decide)⟩

/-- C9: `fisher` and `jacob_cov` pass the allowed-name assert of the
constructor, yet `self.importance_test = self._get_importance_test()` then
raises `NotImplementedError`, so neither accepted name can produce a usable
callback object. -/
theorem fisher_jacob_cov_unusable :
    TestName.fisher ∈ importance_test_names ∧
    TestName.jacob_cov ∈ importance_test_names ∧
    callback_init_importance .fisher = .error .notImplementedError ∧
    callback_init_importance .jacob_cov = .error .notImplementedError := by
  refine ⟨by decide, by decide, rfl, rfl⟩

theorem freqExpected_append_nomatch (seen : List TurnOnRow) (row : TurnOnRow) (L p : Nat)
    (h : ¬(row.layer = L ∧ row.proj = p)) :
    freqExpected (seen ++ [row]) L p = freqExpected seen L p := by
  have hkey : (row.layer == L && row.proj == p) = false := by
    cases hL : (row.layer == L) <;> cases hp : (row.proj == p) <;> simp_all
  have hpred : (row.layer == L && (row.proj == p && row.turned_on)) = false := by
    cases hL : (row.layer == L) <;> cases hp : (row.proj == p) <;> simp_all
  simp only [freqExpected, List.countP_append, List.any_append, List.countP_cons,
    List.countP_nil, List.any_cons, List.any_nil, hpred, hkey]
  simp

theorem freqExpected_append_match_on (seen : List TurnOnRow) (row : TurnOnRow)
    (hon : row.turned_on = true) :
    freqExpected (seen ++ [row]) row.layer row.proj =
      some ((seen.countP fun r =>
        r.layer == row.layer && r.proj == row.proj && r.turned_on) + 1) := by
  have hpred : (row.layer == row.layer && (row.proj == row.proj && row.turned_on)) = true := by
    simp [hon]
  simp only [freqExpected, List.countP_append, List.countP_cons, List.countP_nil, hpred]
  simp [hon]

theorem freqExpected_append_match_off (seen : List TurnOnRow) (row : TurnOnRow)
    (hoff : row.turned_on = false) :
    freqExpected (seen ++ [row]) row.layer row.proj =
      some (seen.countP fun r =>
        r.layer == row.layer && r.proj == row.proj && r.turned_on) := by
  have hpred : (row.layer == row.layer && (row.proj == row.proj && row.turned_on)) = false := by
    simp [hoff]
  have hkey : (row.layer == row.layer && row.proj == row.proj) = true := by simp
  simp only [freqExpected, List.countP_append, List.countP_cons, List.countP_nil,
    List.any_append, List.any_cons, List.any_nil, hpred, hkey]
  rcases Nat.eq_zero_or_pos (seen.countP fun r =>
      r.layer == row.layer && r.proj == row.proj && r.turned_on) with h | h <;>
    simp [h, hoff]

theorem freqStep_lookup_self_on (f : FreqMap) (row : TurnOnRow)
    (hon : row.turned_on = true) :
    lookupFreq (freqStep f row) row.layer row.proj =
      some ((lookupFreq f row.layer row.proj).elim 1 fun c => c + 1) := by
  rcases hf : f row.layer with _ | m
  · simp [freqStep, lookupFreq, hf, hon]
  · rcases hm : m row.proj with _ | c
    · simp [freqStep, lookupFreq, hf, hon, hm]
    · simp [freqStep, lookupFreq, hf, hon, hm]

theorem freqStep_lookup_self_off (f : FreqMap) (row : TurnOnRow)
    (hoff : row.turned_on = false) :
    lookupFreq (freqStep f row) row.layer row.proj =
      some ((lookupFreq f row.layer row.proj).getD 0) := by
  rcases hf : f row.layer with _ | m
  · simp [freqStep, lookupFreq, hf, hoff]
  · rcases hm : m row.proj with _ | c
    · simp [freqStep, lookupFreq, hf, hoff, hm]
    · simp [freqStep, lookupFreq, hf, hoff, hm]

theorem freqStep_lookup_other (f : FreqMap) (row : TurnOnRow) (L p : Nat)
    (h : ¬(L = row.layer ∧ p = row.proj)) :
    lookupFreq (freqStep f row) L p = lookupFreq f L p := by
  by_cases hL : L = row.layer
  · have hp : p ≠ row.proj := fun hp => h ⟨hL, hp⟩
    subst hL
    rcases hf : f row.layer with _ | m
    · cases hon : row.turned_on
      · simp [freqStep, lookupFreq, hf, hon, hp]
      · simp [freqStep, lookupFreq, hf, hon, hp]
    · cases hon : row.turned_on
      · rcases hm : m row.proj with _ | c <;>
          simp [freqStep, lookupFreq, hf, hon, hm, hp]
      · simp [freqStep, lookupFreq, hf, hon, hp]
  · cases hon : row.turned_on
    · rcases hm2 : f row.layer with _ | m2
      · simp [freqStep, lookupFreq, hon, hL, hm2]
      · rcases hm : m2 row.proj with _ | c <;>
          simp [freqStep, lookupFreq, hon, hL, hm2, hm]
    · simp [freqStep, lookupFreq, hon, hL]

theorem freqStep_inv (f : FreqMap) (seen : List TurnOnRow) (row : TurnOnRow)
    (h : ∀ L p, lookupFreq f L p = freqExpected seen L p) :
    ∀ L p, lookupFreq (freqStep f row) L p = freqExpected (seen ++ [row]) L p := by
  intro L p
  by_cases hkey : L = row.layer ∧ p = row.proj
  · obtain ⟨hL, hp⟩ := hkey
    subst hL
    subst hp
    cases hon : row.turned_on
    · rw [freqStep_lookup_self_off f row hon, freqExpected_append_match_off seen row hon,
        h row.layer row.proj]
      rw [freqExpected]
      by_cases hc : 0 < seen.countP fun r =>
          r.layer == row.layer && r.proj == row.proj && r.turned_on
      · rw [if_pos hc]
        rfl
      · rw [if_neg hc]
        have hc0 : seen.countP (fun r =>
            r.layer == row.layer && r.proj == row.proj && r.turned_on) = 0 := by omega
        by_cases ha : seen.any (fun r => r.layer == row.layer && r.proj == row.proj) = true
        · rw [if_pos ha, hc0]
          rfl
        · rw [if_neg ha, hc0]
          rfl
    · rw [freqStep_lookup_self_on f row hon, freqExpected_append_match_on seen row hon,
        h row.layer row.proj]
      rw [freqExpected]
      by_cases hc : 0 < seen.countP fun r =>
          r.layer == row.layer && r.proj == row.proj && r.turned_on
      · rw [if_pos hc]
        rfl
      · rw [if_neg hc]
        have hc0 : seen.countP (fun r =>
            r.layer == row.layer && r.proj == row.proj && r.turned_on) = 0 := by omega
        by_cases ha : seen.any (fun r => r.layer == row.layer && r.proj == row.proj) = true
        · rw [if_pos ha, hc0]
          rfl
        · rw [if_neg ha, hc0]
          rfl
  · rw [freqStep_lookup_other f row L p hkey, h L p,
      freqExpected_append_nomatch seen row L p]
    intro hc
    exact hkey ⟨hc.1.symm, hc.2.symm⟩

theorem freq_fold_inv :
    ∀ (rows : List TurnOnRow) (f : FreqMap) (seen : List TurnOnRow),
      (∀ L p, lookupFreq f L p = freqExpected seen L p) →
      ∀ L p, lookupFreq (rows.foldl freqStep f) L p = freqExpected (seen ++ rows) L p
  | [], f, seen, h => by simpa using h
  | row :: rest, f, seen, h => by
    simp only [List.foldl_cons]
    have h2 := freqStep_inv f seen row h
    have h3 := freq_fold_inv rest (freqStep f row) (seen ++ [row]) h2
    simpa using h3

theorem freqEmpty_expected : ∀ L p, lookupFreq freqEmpty L p = freqExpected [] L p := by
  intro L p
  simp [lookupFreq, freqEmpty, freqExpected]

theorem foldl_pair_indep {α β γ : Type} (f1 : α → γ → α) (f2 : β → γ → β) :
    ∀ (l : List γ) (a : α) (b : β),
      l.foldl (fun acc x => (f1 acc.1 x, f2 acc.2 x)) (a, b) =
        (l.foldl f1 a, l.foldl f2 b)
  | [], _, _ => rfl
  | x :: rest, a, b => by
    simp only [List.foldl_cons]
    exact foldl_pair_indep f1 f2 rest (f1 a x) (f2 b x)

theorem foldl_zip_snd {β γ : Type} (g : β → γ → β) :
    ∀ (ns : List Nat) (l : List γ) (b : β), ns.length = l.length →
      (ns.zip l).foldl (fun acc p => g acc p.2) b = l.foldl g b
  | [], [], _, _ => rfl
  | _ :: ns, x :: l, b, h => by
    simp only [List.zip_cons_cons, List.foldl_cons]
    exact foldl_zip_snd g ns l (g b x) (by simpa using h)
  | [], _ :: _, _, h => by simp at h
  | _ :: _, [], _, h => by simp at h

theorem freq_fold_rounds :
    ∀ (hist : List ReallocRound) (f : FreqMap),
      hist.foldl (fun acc r => r.turn_on.foldl freqStep acc) f =
        ((hist.map fun r => r.turn_on).flatten).foldl freqStep f
  | [], _ => rfl
  | r :: rest, f => by
    simp only [List.foldl_cons, List.map_cons, List.flatten_cons, List.foldl_append]
    exact freq_fold_rounds rest _

theorem histInsert_fresh (h : List (HistKey × HistVal)) (k : HistKey) (v : HistVal)
    (hf : ∀ q ∈ h, q.1 ≠ k) :
    histInsert h k v = h ++ [(k, v)] := by
  rw [histInsert, if_neg]
  simp only [List.any_eq_true, beq_iff_eq, not_exists]
  intro q
  intro hc
  exact absurd hc.2 (hf q hc.1)

theorem hist_fold_append :
    ∀ (l : List ReallocRound) (start : Nat) (acc : List (HistKey × HistVal)),
      (∀ q ∈ acc, q.1 = HistKey.max_alpha ∨ ∃ j, j < start ∧ q.1 = HistKey.dyrealloc j) →
      ((List.range' start l.length).zip l).foldl
          (fun a p => histInsert a (HistKey.dyrealloc p.1) (HistVal.round p.2)) acc =
        acc ++ ((List.range' start l.length).zip l).map
          (fun p => (HistKey.dyrealloc p.1, HistVal.round p.2))
  | [], start, acc, _ => by simp
  | r :: rest, start, acc, hacc => by
    have hfresh : ∀ q ∈ acc, q.1 ≠ HistKey.dyrealloc start := by
      intro q hq hc
      rcases hacc q hq with h1 | ⟨j, hj, h1⟩
      · rw [hc] at h1
        exact HistKey.noConfusion h1
      · rw [hc] at h1
        have : start = j := by
          cases h1
          rfl
        omega
    have hacc2 : ∀ q ∈ acc ++ [(HistKey.dyrealloc start, HistVal.round r)],
        q.1 = HistKey.max_alpha ∨ ∃ j, j < start + 1 ∧ q.1 = HistKey.dyrealloc j := by
      intro q hq
      rcases List.mem_append.mp hq with h1 | h1
      · rcases hacc q h1 with h2 | ⟨j, hj, h2⟩
        · exact Or.inl h2
        · exact Or.inr ⟨j, by omega, h2⟩
      · have : q = (HistKey.dyrealloc start, HistVal.round r) := by simpa using h1
        exact Or.inr ⟨start, by omega, by rw [this]⟩
    have ih := hist_fold_append rest (start + 1)
      (acc ++ [(HistKey.dyrealloc start, HistVal.round r)]) hacc2
    simp only [List.length_cons, List.range'_succ, List.zip_cons_cons, List.foldl_cons,
      List.map_cons]
    rw [histInsert_fresh acc (HistKey.dyrealloc start) (HistVal.round r) hfresh, ih]
    simp

theorem countP_round (L p : Nat) :
    ∀ rows : List TurnOnRow,
      (rows.map fun row => (row.layer, row.proj)).Nodup →
      rows.countP (fun row => row.layer == L && row.proj == p && row.turned_on) =
        if rows.any (fun row => row.layer == L && row.proj == p && row.turned_on) then 1
        else 0
  | [], _ => rfl
  | row :: rest, hnd => by
    rw [List.map_cons, List.nodup_cons] at hnd
    obtain ⟨hnotin, hnd2⟩ := hnd
    have ih := countP_round L p rest hnd2
    by_cases hpred : (row.layer == L && row.proj == p && row.turned_on) = true
    · have hLp : row.layer = L ∧ row.proj = p := by
        simp only [Bool.and_eq_true, beq_iff_eq] at hpred
        exact ⟨hpred.1.1, hpred.1.2⟩
      have hrest0 : rest.countP
          (fun row => row.layer == L && row.proj == p && row.turned_on) = 0 := by
        rw [List.countP_eq_zero]
        intro q hq hc
        simp only [Bool.and_eq_true, beq_iff_eq] at hc
        apply hnotin
        have hqq : (q.layer, q.proj) = (row.layer, row.proj) := by
          rw [hc.1.1, hc.1.2, hLp.1, hLp.2]
        rw [← hqq]
        exact List.mem_map_of_mem _ hq
      simp only [List.countP_cons, List.any_cons, hpred, hrest0, Bool.true_or, if_true]
    · have hpred2 : (row.layer == L && row.proj == p && row.turned_on) = false := by
        rwa [Bool.not_eq_true] at hpred
      simp only [List.countP_cons, List.any_cons, hpred2, Bool.false_or, if_false, ih,
        Bool.false_eq_true]
      omega

theorem countP_rounds_flat (L p : Nat) :
    ∀ hist : List ReallocRound,
      (∀ r ∈ hist, (r.turn_on.map fun row => (row.layer, row.proj)).Nodup) →
      ((hist.map fun r => r.turn_on).flatten).countP
          (fun row => row.layer == L && row.proj == p && row.turned_on) =
        hist.countP (fun r => r.turn_on.any
          fun row => row.layer == L && row.proj == p && row.turned_on)
  | [], _ => rfl
  | r :: rest, h => by
    have ih := countP_rounds_flat L p rest fun q hq => h q (List.mem_cons_of_mem r hq)
    have hr := countP_round L p r.turn_on (h r (List.mem_cons_self r rest))
    simp only [List.map_cons, List.flatten_cons, List.countP_append, List.countP_cons, ih, hr]
    by_cases ha : r.turn_on.any
        (fun row => row.layer == L && row.proj == p && row.turned_on) = true
    · simp only [ha, if_true]
      omega
    · rw [Bool.not_eq_true] at ha
      simp only [ha, Bool.false_eq_true, if_false]
      omega

theorem any_rounds_flat (L p : Nat) :
    ∀ hist : List ReallocRound,
      ((hist.map fun r => r.turn_on).flatten).any
          (fun row => row.layer == L && row.proj == p) =
        hist.any (fun r => r.turn_on.any fun row => row.layer == L && row.proj == p)
  | [] => rfl
  | r :: rest => by
    simp only [List.map_cons, List.flatten_cons, List.any_append, List.any_cons,
      any_rounds_flat L p rest]

/-- C7: after `K` completed rounds the persisted history document is the
`max_alpha` prefix (alpha strategy only) followed by exactly `K` entries
keyed `dyrealloc_0 … dyrealloc_{K-1}` in insertion (chronological) order
holding the rounds in order; the frequency summary maps
`total_reallocation_number` to `K` and each `(layer, projection)` to the
number of rounds in which that module was turned on, the count present with
value 0 for a module evaluated in some round but never turned on, and absent
for a module never evaluated. -/
theorem realloc_history_spec (isAlphaTest : Bool) (hist : List ReallocRound)
    (hnd : ∀ r ∈ hist, (r.turn_on.map fun row => (row.layer, row.proj)).Nodup) :
    (save_reallocation_history isAlphaTest hist).1 =
      (if isAlphaTest then [(HistKey.max_alpha, HistVal.nat ALPHA_UB)] else []) ++
        ((List.range hist.length).zip hist).map
          (fun p => (HistKey.dyrealloc p.1, HistVal.round p.2)) ∧
    (save_reallocation_history isAlphaTest hist).2.total_reallocation_number =
      hist.length ∧
    ∀ L p, lookupFreq (save_reallocation_history isAlphaTest hist).2.layers L p =
      (if 0 < hist.countP (fun r => r.turn_on.any
            fun row => row.layer == L && row.proj == p && row.turned_on) then
        some (hist.countP fun r => r.turn_on.any
          fun row => row.layer == L && row.proj == p && row.turned_on)
      else if hist.any (fun r => r.turn_on.any
            fun row => row.layer == L && row.proj == p) then some 0
      else none) := by
  have hpair := foldl_pair_indep
    (fun a (p : Nat × ReallocRound) => histInsert a (HistKey.dyrealloc p.1) (HistVal.round p.2))
    (fun b (p : Nat × ReallocRound) => p.2.turn_on.foldl freqStep b)
    ((List.range hist.length).zip hist)
    (if isAlphaTest then [(HistKey.max_alpha, HistVal.nat ALPHA_UB)] else [])
    freqEmpty
  refine ⟨?_, rfl, ?_⟩
  · show (((List.range hist.length).zip hist).foldl
        (fun acc p =>
          (histInsert acc.1 (HistKey.dyrealloc p.1) (HistVal.round p.2),
           p.2.turn_on.foldl freqStep acc.2))
        ((if isAlphaTest then [(HistKey.max_alpha, HistVal.nat ALPHA_UB)] else []),
          freqEmpty)).1 = _
    rw [hpair]
    show ((List.range hist.length).zip hist).foldl
        (fun a p => histInsert a (HistKey.dyrealloc p.1) (HistVal.round p.2))
        (if isAlphaTest then [(HistKey.max_alpha, HistVal.nat ALPHA_UB)] else []) = _
    have hacc0 : ∀ q ∈ (if isAlphaTest then
          [(HistKey.max_alpha, HistVal.nat ALPHA_UB)] else ([] : List (HistKey × HistVal))),
        q.1 = HistKey.max_alpha ∨ ∃ j, j < 0 ∧ q.1 = HistKey.dyrealloc j := by
      intro q hq
      rcases hi : isAlphaTest
      · rw [hi] at hq
        simp at hq
      · rw [hi] at hq
        have hqe : q = (HistKey.max_alpha, HistVal.nat ALPHA_UB) := by simpa using hq
        exact Or.inl (by rw [hqe])
    rw [List.range_eq_range']
    rw [hist_fold_append hist 0
      (if isAlphaTest then [(HistKey.max_alpha, HistVal.nat ALPHA_UB)] else []) hacc0]
  · intro L p
    show lookupFreq (((List.range hist.length).zip hist).foldl
        (fun acc p =>
          (histInsert acc.1 (HistKey.dyrealloc p.1) (HistVal.round p.2),
           p.2.turn_on.foldl freqStep acc.2))
        ((if isAlphaTest then [(HistKey.max_alpha, HistVal.nat ALPHA_UB)] else []),
          freqEmpty)).2 L p = _
    rw [hpair]
    show lookupFreq (((List.range hist.length).zip hist).foldl
        (fun acc p => p.2.turn_on.foldl freqStep acc) freqEmpty) L p = _
    rw [foldl_zip_snd (fun acc (r : ReallocRound) => r.turn_on.foldl freqStep acc)
      (List.range hist.length) hist freqEmpty (List.length_range hist.length)]
    rw [freq_fold_rounds hist freqEmpty]
    have hinv := freq_fold_inv ((hist.map fun r => r.turn_on).flatten) freqEmpty []
      freqEmpty_expected L p
    rw [List.nil_append] at hinv
    rw [hinv, freqExpected, countP_rounds_flat L p hist hnd, any_rounds_flat L p hist]

/-- Witness for `realloc_history_spec`: two rounds, module `(0,0)` turned on
twice, module `(1,1)` evaluated but never on, module `(2,0)` never seen. -/
theorem realloc_history_spec_witness :
    (save_reallocation_history true histEx).1 =
      [(HistKey.max_alpha, HistVal.nat ALPHA_UB),
       (HistKey.dyrealloc 0, HistVal.round (histEx.getD 0 ⟨0, 0, []⟩)),
       (HistKey.dyrealloc 1, HistVal.round (histEx.getD 1 ⟨0, 0, []⟩))] ∧
    (save_reallocation_history true histEx).2.total_reallocation_number = 2 ∧
    lookupFreq (save_reallocation_history true histEx).2.layers 0 0 = some 2 ∧
    lookupFreq (save_reallocation_history true histEx).2.layers 1 1 = some 0 ∧
    lookupFreq (save_reallocation_history true histEx).2.layers 2 0 = none := by
  have h := realloc_history_spec true histEx (by decide)
  refine ⟨?_, h.2.1.trans (by decide), ?_, ?_, ?_⟩
  · rw [h.1]
    decide
  · rw [h.2.2 0 0]
    decide
  · rw [h.2.2 1 1]
    decide
  · rw [h.2.2 2 0]
    decide

end DyRealloc
